import Mathlib

/-!
Shallow embedding of `generate_sim_epsp.py`: the waveform models
(`double_exponential`, `single_exponential`), the time-base construction
(`generate_time_array`, the uniform/variable branches of `main`, delay
handling), and the ATF stimulus-file writer (`write_atf_file`) together
with the peak lookup shared with `plot_stimulus`.

Numeric conventions: the Python code computes with IEEE doubles; the
embedding uses exact arithmetic — `ℚ` for the time-base and writer layers
(field operations and comparisons only) and `ℝ` for the waveform models
(which use the exponential function).
-/

namespace SimEPSP

/-- Python `int()` on a rational: truncation toward zero. -/
def py_int (q : ℚ) : ℤ := if 0 ≤ q then ⌊q⌋ else ⌈q⌉

/-- Model of `np.arange(start, stop, step)`: the points `start + i*step`
for `0 ≤ i < ⌈(stop - start)/step⌉`. -/
def np_arange (start stop step : ℚ) : List ℚ :=
  (List.range (Int.toNat ⌈(stop - start) / step⌉)).map
    (fun (i : ℕ) => start + (i : ℚ) * step)

/-- Model of `np.linspace(start, stop, num, endpoint=False)`: the `num`
points `start + i*(stop - start)/num`. -/
def np_linspace (start stop : ℚ) (num : ℕ) : List ℚ :=
  (List.range num).map (fun (i : ℕ) => start + (i : ℚ) * ((stop - start) / (num : ℚ)))

/-- Model of `np.unique`: sort ascending and remove duplicate values. -/
def np_unique (l : List ℚ) : List ℚ :=
  (List.insertionSort (fun a b => a ≤ b) l).dedup

/-- `generate_time_array` from the source: a fine grid
`np.arange(0, fine_duration, dt_fine)`, a coarse grid
`np.arange(fine_duration, duration + dt_coarse, dt_coarse)`, concatenated
and passed through `np.unique`. -/
def generate_time_array (duration dt_fine dt_coarse fine_duration : ℚ) : List ℚ :=
  np_unique (np_arange 0 fine_duration dt_fine ++
    np_arange fine_duration (duration + dt_coarse) dt_coarse)

/-- Uniform-sampling time array built by `main`:
`np.arange(0, delay + duration, 1/sampling_rate)`. -/
def uniform_time (sampling_rate delay duration : ℚ) : List ℚ :=
  np_arange 0 (delay + duration) (1 / sampling_rate)

/-- Auto-delay in uniform mode:
`total_samples = int((args.delay + args.duration) / dt)` and
`delay = (total_samples / 64) * dt`, with `dt = 1/sampling_rate`. -/
def auto_delay_uniform (sampling_rate delay0 duration : ℚ) : ℚ :=
  ((py_int ((delay0 + duration) / (1 / sampling_rate)) : ℚ) / 64) * (1 / sampling_rate)

/-- Delay used by `main` in uniform mode: auto-computed when
`--auto_delay` is passed, otherwise `args.delay` unchanged. -/
def main_delay_uniform (auto : Bool) (sampling_rate delay0 duration : ℚ) : ℚ :=
  if auto then auto_delay_uniform sampling_rate delay0 duration else delay0

/-- Stimulus time array of `main` in variable-resolution mode:
`generate_time_array` on the duration converted s → ms, then the whole
array converted ms → s. -/
def var_time0 (duration dt_fine dt_coarse fine_duration : ℚ) : List ℚ :=
  (generate_time_array (duration * 1000) dt_fine dt_coarse fine_duration).map
    (fun x => x / 1000)

/-- `time[1] - time[0]`, the approximate step of an array. -/
def dt_head (l : List ℚ) : ℚ := l.getD 1 0 - l.getD 0 0

/-- Auto-delay in variable mode: `(len(time) / 64) * (time[1] - time[0])`
on the stimulus array before the delay is prepended. -/
def auto_delay_var (duration dt_fine dt_coarse fine_duration : ℚ) : ℚ :=
  (((var_time0 duration dt_fine dt_coarse fine_duration).length : ℚ) / 64) *
    dt_head (var_time0 duration dt_fine dt_coarse fine_duration)

/-- Delay used by `main` in variable mode. -/
def main_delay_var (auto : Bool) (duration dt_fine dt_coarse fine_duration delay0 : ℚ) : ℚ :=
  if auto then auto_delay_var duration dt_fine dt_coarse fine_duration else delay0

/-- Final time array of `main` in variable mode: the delay sub-sequence
`np.linspace(0, delay, int(delay / (time[1]-time[0])), endpoint=False)`
prepended to the delay-shifted stimulus array. -/
def final_time_var (duration dt_fine dt_coarse fine_duration delay : ℚ) : List ℚ :=
  let t0 := var_time0 duration dt_fine dt_coarse fine_duration
  np_linspace 0 delay (Int.toNat (py_int (delay / dt_head t0))) ++
    t0.map (fun x => x + delay)

/-- `double_exponential` (FAST-RISING) from the source; the elementwise
mask `y[t < 0] = 0` becomes a conditional on the scalar time argument. -/
noncomputable def double_exponential
    (t A1 tau_rise1 tau_decay1 A2 tau_rise2 tau_decay2 : ℝ) : ℝ :=
  let component1 := A1 * (1 - Real.exp (-t / tau_rise1)) * Real.exp (-t / tau_decay1)
  let component2 := A2 * (1 - Real.exp (-t / tau_rise2)) * Real.exp (-t / tau_decay2)
  if t < 0 then 0 else component1 + component2

/-- `single_exponential` (SLOW-RISING) from the source. -/
noncomputable def single_exponential (t A tau_rise tau_decay : ℝ) : ℝ :=
  let y := A * (1 - Real.exp (-t / tau_rise)) * Real.exp (-t / tau_decay)
  if t < 0 then 0 else y

/-- Current array computed by `main` for fast kinetics: the model applied
to `time_stimulus = time - delay`, the tau arguments converted ms → s. -/
noncomputable def main_current_fast (time : List ℚ) (delay A1 tr1 td1 A2 tr2 td2 : ℚ) :
    List ℝ :=
  (time.map (fun t => t - delay)).map
    (fun ts => double_exponential (Rat.cast ts) (A1 : ℝ) ((tr1 : ℝ) / 1000)
      ((td1 : ℝ) / 1000) (A2 : ℝ) ((tr2 : ℝ) / 1000) ((td2 : ℝ) / 1000))

/-- Current array computed by `main` for slow kinetics. -/
noncomputable def main_current_slow (time : List ℚ) (delay A tr td : ℚ) : List ℝ :=
  (time.map (fun t => t - delay)).map
    (fun ts => single_exponential (Rat.cast ts) (A : ℝ) ((tr : ℝ) / 1000) ((td : ℝ) / 1000))

/-- Value of `np.max` on an array (0 on the empty array, on which NumPy
raises instead; `write_atf_file` is modelled as failing there). -/
def list_max : List ℚ → ℚ
  | [] => 0
  | [x] => x
  | x :: y :: xs => max x (list_max (y :: xs))

/-- Value of `np.min` on an array (0 on the empty array). -/
def list_min : List ℚ → ℚ
  | [] => 0
  | [x] => x
  | x :: y :: xs => min x (list_min (y :: xs))

/-- `np.argmax`: index of the first occurrence of the maximum (0 on the
empty array, on which NumPy raises instead). -/
def np_argmax : List ℚ → ℕ
  | [] => 0
  | [_] => 0
  | x :: y :: xs => if x < list_max (y :: xs) then np_argmax (y :: xs) + 1 else 0

/-- Round to the nearest integer, ties to even, as Python float
formatting does. -/
def round_half_even (q : ℚ) : ℤ :=
  let f := ⌊q⌋
  let r := q - (f : ℚ)
  if r < 1/2 then f else if 1/2 < r then f + 1 else if Even f then f else f + 1

/-- Two-digit zero-padded rendering of `n % 100`. -/
def two_digits (n : ℕ) : String :=
  (if n % 100 < 10 then "0" else "") ++ toString (n % 100)

/-- Python `f"{x:.2f}"`: fixed-point notation with two decimal places. -/
def fmt2 (q : ℚ) : String :=
  let n := round_half_even (q * 100)
  (if n < 0 then "-" else "") ++ toString (n.natAbs / 100) ++ "." ++ two_digits n.natAbs

/-- Strip trailing decimal zeros from a significand (fuel-bounded). -/
def strip_zeros : ℕ → ℕ → ℕ
  | 0, n => n
  | fuel + 1, n => if n % 10 = 0 ∧ 1 ≤ n then strip_zeros fuel (n / 10) else n

/-- Fixed-notation rendering of significand digits `ds` with decimal
exponent `e` (point placed after `e + 1` digits, zero-padded). -/
def g_fixed (ds : String) (e : ℤ) : String :=
  if e < 0 then
    "0." ++ String.mk (List.replicate (Int.toNat (-e) - 1) '0') ++ ds
  else if (e + 1 : ℤ) < (ds.length : ℤ) then
    (ds.toList.take (Int.toNat e + 1)).asString ++ "." ++
      (ds.toList.drop (Int.toNat e + 1)).asString
  else
    ds ++ String.mk (List.replicate (Int.toNat (e + 1) - ds.length) '0')

/-- Scientific-notation rendering `d.ddde±XX` in the Python style (sign
always present, exponent zero-padded to two digits). -/
def g_sci (ds : String) (e : ℤ) : String :=
  let mant := match ds.toList with
    | [] => "0"
    | c :: rest =>
      if rest.isEmpty then String.mk [c] else String.mk [c] ++ "." ++ String.mk rest
  let ea := Int.toNat (if e < 0 then -e else e)
  mant ++ "e" ++ (if e < 0 then "-" else "+") ++ (if ea < 10 then "0" else "") ++ toString ea

/-- General format for a positive rational: 6 significant digits with
half-even rounding, scientific notation when the decimal exponent is
below -4 or above 5, trailing zeros stripped. Magnitudes below `10^-60`
render as `0` (below any magnitude the script produces). -/
def fmtG_pos (r : ℚ) : String :=
  let m0 := Int.toNat ⌊r * (10 : ℚ) ^ (60 : ℕ)⌋
  if m0 = 0 then "0"
  else
    let e0 : ℤ := (Nat.log 10 m0 : ℤ) - 60
    let s0 := Int.toNat (round_half_even (r * (10 : ℚ) ^ (5 - e0)))
    let e := if s0 = 10 ^ 6 then e0 + 1 else e0
    let s := if s0 = 10 ^ 6 then 10 ^ 5 else s0
    let ds := toString (strip_zeros 6 s)
    if e < -4 ∨ 5 < e then g_sci ds e else g_fixed ds e

/-- Python `f"{x:g}"` on an exact rational. -/
def fmtG (q : ℚ) : String :=
  if q = 0 then "0" else if q < 0 then "-" ++ fmtG_pos (-q) else fmtG_pos q

/-- Display bound `YTop = y_max + 0.1 * (y_max - y_min)` computed by
`write_atf_file`. -/
def y_top (current : List ℚ) : ℚ :=
  list_max current + (1/10) * (list_max current - list_min current)

/-- Display bound `YBottom = y_min - 0.1 * (y_max - y_min)` computed by
`write_atf_file`. -/
def y_bottom (current : List ℚ) : ℚ :=
  list_min current - (1/10) * (list_max current - list_min current)

/-- The ten lines `write_atf_file` emits before the data rows: the ATF
magic line, the `8 2` declaration (8 header records, 2 columns), and the
8 header lines ending with the column-title row (the detailed comment
string is taken as an argument; its assembly is string glue). -/
def atf_header_lines (comment : String) (current : List ℚ) : List String :=
  ["ATF\t1.0", "8\t2", "\"AcquisitionMode=Episodic Stimulation\"",
   "\"Comment=" ++ comment ++ "\"",
   "\"YTop=" ++ fmt2 (y_top current) ++ "\"",
   "\"YBottom=" ++ fmt2 (y_bottom current) ++ "\"",
   "\"SweepStartTimesMS=0.000\"",
   "\"SignalsExported=IN 0\"",
   "\"Signals=\"\t\"IN 0\"",
   "\"Time (s)\"\t\"IN 0 (pA)\""]

/-- Lines of the ATF file produced by `write_atf_file`. The code
computes `np.max`/`np.min` of `current` after writing the first four
lines; on an empty array that raises `ValueError`, modelled by `.error`
carrying the four lines already written at that point. -/
def write_atf_file (comment : String) (time current : List ℚ) :
    Except (List String) (List String) :=
  if current.isEmpty then .error ((atf_header_lines comment current).take 4)
  else .ok (atf_header_lines comment current ++
    (time.zip current).map (fun p => fmtG p.1 ++ "\t" ++ fmtG p.2))

/-- Peak reported by `write_atf_file`:
`np.max(current)` at `time[np.argmax(current)]`. -/
def atf_peak (time current : List ℚ) : ℚ × ℚ :=
  (time.getD (np_argmax current) 0, list_max current)

/-- Peak marked by `plot_stimulus`: `(time[peak_idx], current[peak_idx])`
with `peak_idx = np.argmax(current)`. -/
def plot_peak (time current : List ℚ) : ℚ × ℚ :=
  (time.getD (np_argmax current) 0, current.getD (np_argmax current) 0)

theorem np_arange_length (start stop step : ℚ) :
    (np_arange start stop step).length = Int.toNat ⌈(stop - start) / step⌉ := by
  simp [np_arange]

theorem np_arange_getD (start stop step : ℚ) (i : ℕ)
    (h : i < (np_arange start stop step).length) :
    (np_arange start stop step).getD i 0 = start + (i : ℚ) * step := by
  rw [List.getD_eq_getElem _ _ h]
  simp [np_arange]

theorem np_arange_mem (start stop step y : ℚ) (hy : y ∈ np_arange start stop step) :
    ∃ i : ℕ, (i : ℤ) < ⌈(stop - start) / step⌉ ∧ y = start + (i : ℚ) * step := by
  simp only [np_arange, List.mem_map, List.mem_range] at hy
  obtain ⟨i, hi, rfl⟩ := hy
  exact ⟨i, Int.lt_toNat.mp hi, rfl⟩

theorem np_arange_mem_lt (start stop step y : ℚ) (hstep : 0 < step)
    (hy : y ∈ np_arange start stop step) : y < stop := by
  obtain ⟨i, hi, rfl⟩ := np_arange_mem _ _ _ _ hy
  have h1 : (i : ℚ) < (stop - start) / step := by
    have h2 := Int.lt_ceil.mp hi
    exact_mod_cast h2
  have h3 := (lt_div_iff₀ hstep).mp h1
  linarith

theorem np_arange_mem_ge (start stop step y : ℚ) (hstep : 0 ≤ step)
    (hy : y ∈ np_arange start stop step) : start ≤ y := by
  obtain ⟨i, _, rfl⟩ := np_arange_mem _ _ _ _ hy
  have h1 : 0 ≤ (i : ℚ) * step := mul_nonneg (Nat.cast_nonneg i) hstep
  linarith

theorem np_arange_pairwise (start stop step : ℚ) (hstep : 0 < step) :
    (np_arange start stop step).Pairwise (· < ·) := by
  unfold np_arange
  rw [List.pairwise_map]
  refine (List.pairwise_lt_range _).imp ?_
  intro a b hab
  have h1 : (a : ℚ) < (b : ℚ) := by exact_mod_cast hab
  have h2 := mul_lt_mul_of_pos_right h1 hstep
  linarith

theorem mem_of_getD {l : List ℚ} {n : ℕ} (d : ℚ) (h : n < l.length) :
    l.getD n d ∈ l := by
  rw [List.getD_eq_getElem _ _ h]
  exact List.getElem_mem h

/-- With positive steps the two grids of `generate_time_array` are
already sorted, disjoint and duplicate-free, so `np.unique` returns
their concatenation unchanged. -/
theorem generate_time_array_eq_append (duration df dc fd : ℚ)
    (hdf : 0 < df) (hdc : 0 < dc) :
    generate_time_array duration df dc fd =
      np_arange 0 fd df ++ np_arange fd (duration + dc) dc := by
  have hpair : (np_arange 0 fd df ++ np_arange fd (duration + dc) dc).Pairwise (· < ·) := by
    rw [List.pairwise_append]
    refine ⟨np_arange_pairwise _ _ _ hdf, np_arange_pairwise _ _ _ hdc, ?_⟩
    intro a ha b hb
    exact lt_of_lt_of_le (np_arange_mem_lt _ _ _ _ hdf ha)
      (np_arange_mem_ge _ _ _ _ (le_of_lt hdc) hb)
  have hsorted : (np_arange 0 fd df ++ np_arange fd (duration + dc) dc).Sorted (· ≤ ·) :=
    hpair.imp le_of_lt
  have hnodup : (np_arange 0 fd df ++ np_arange fd (duration + dc) dc).Nodup :=
    hpair.imp ne_of_lt
  rw [generate_time_array, np_unique, List.Sorted.insertionSort_eq hsorted, hnodup.dedup]

theorem generate_time_array_pairwise (duration df dc fd : ℚ)
    (hdf : 0 < df) (hdc : 0 < dc) :
    (generate_time_array duration df dc fd).Pairwise (· < ·) := by
  rw [generate_time_array_eq_append _ _ _ _ hdf hdc, List.pairwise_append]
  refine ⟨np_arange_pairwise _ _ _ hdf, np_arange_pairwise _ _ _ hdc, ?_⟩
  intro a ha b hb
  exact lt_of_lt_of_le (np_arange_mem_lt _ _ _ _ hdf ha)
    (np_arange_mem_ge _ _ _ _ (le_of_lt hdc) hb)

/-- Claim C3 as stated is false: with `duration = 5/2`, `dt_fine = 1/2`,
`dt_coarse = 1`, `fine_duration = 1`, the produced array contains the
point 3, which exceeds the duration `5/2`. -/
theorem variable_exceeds_duration_counterexample :
    (3 : ℚ) ∈ generate_time_array (5/2) (1/2) 1 1 ∧ (5/2 : ℚ) < 3 := by
  refine ⟨?_, by norm_num⟩
  rw [generate_time_array_eq_append _ _ _ _ (by norm_num) (by norm_num)]
  apply List.mem_append_right
  simp only [np_arange, List.mem_map, List.mem_range]
  refine ⟨2, ?_, by norm_num⟩
  rw [show ⌈(((5 : ℚ)/2 + 1) - 1) / 1⌉ = 3 by rw [Int.ceil_eq_iff]; norm_num]
  decide

/-- Claim C3 (amended): for positive steps and `fine_duration ≤ duration`,
consecutive points of `generate_time_array` whose successor lies in
`[0, fine_duration)` are spaced by `dt_fine`, consecutive points from
`fine_duration` on are spaced by `dt_coarse`, every point is strictly
below `duration + dt_coarse` (the last coarse point may exceed `duration`
itself by up to `dt_coarse`), and there are no duplicate time values. -/
theorem generate_time_array_spec (duration df dc fd : ℚ)
    (hdf : 0 < df) (hdc : 0 < dc) (hfdur : fd ≤ duration) :
    (∀ i, i + 1 < (generate_time_array duration df dc fd).length →
      ((generate_time_array duration df dc fd).getD (i+1) 0 < fd →
        (generate_time_array duration df dc fd).getD (i+1) 0 -
          (generate_time_array duration df dc fd).getD i 0 = df) ∧
      (fd ≤ (generate_time_array duration df dc fd).getD i 0 →
        (generate_time_array duration df dc fd).getD (i+1) 0 -
          (generate_time_array duration df dc fd).getD i 0 = dc)) ∧
    (∀ x ∈ generate_time_array duration df dc fd, x < duration + dc) ∧
    (generate_time_array duration df dc fd).Nodup := by
  have heq := generate_time_array_eq_append duration df dc fd hdf hdc
  refine ⟨?_, ?_, (generate_time_array_pairwise duration df dc fd hdf hdc).imp ne_of_lt⟩
  · intro i hi
    rw [heq] at hi ⊢
    rw [List.length_append] at hi
    constructor
    · intro hlt
      have hiF : i + 1 < (np_arange 0 fd df).length := by
        by_contra hge
        push_neg at hge
        have hidx : i + 1 - (np_arange 0 fd df).length <
            (np_arange fd (duration + dc) dc).length := by omega
        rw [List.getD_append_right _ _ _ _ hge] at hlt
        have hmem := mem_of_getD (l := np_arange fd (duration + dc) dc)
          (n := i + 1 - (np_arange 0 fd df).length) 0 hidx
        have hge2 := np_arange_mem_ge _ _ _ _ (le_of_lt hdc) hmem
        linarith
      have hiF0 : i < (np_arange 0 fd df).length := Nat.lt_of_succ_lt hiF
      rw [List.getD_append _ _ _ _ hiF, List.getD_append _ _ _ _ hiF0,
        np_arange_getD _ _ _ _ hiF, np_arange_getD _ _ _ _ hiF0]
      push_cast
      ring
    · intro hge
      have hiC : (np_arange 0 fd df).length ≤ i := by
        by_contra hlt2
        push_neg at hlt2
        rw [List.getD_append _ _ _ _ hlt2] at hge
        have hmem := mem_of_getD (l := np_arange 0 fd df) (n := i) 0 hlt2
        have hlt3 := np_arange_mem_lt _ _ _ _ hdf hmem
        linarith
      have hiC1 : (np_arange 0 fd df).length ≤ i + 1 := Nat.le_succ_of_le hiC
      have hidx : i - (np_arange 0 fd df).length <
          (np_arange fd (duration + dc) dc).length := by omega
      have hidx1 : i + 1 - (np_arange 0 fd df).length <
          (np_arange fd (duration + dc) dc).length := by omega
      rw [List.getD_append_right _ _ _ _ hiC, List.getD_append_right _ _ _ _ hiC1,
        np_arange_getD _ _ _ _ hidx1, np_arange_getD _ _ _ _ hidx,
        show i + 1 - (np_arange 0 fd df).length =
          (i - (np_arange 0 fd df).length) + 1 by omega]
      push_cast
      ring
  · intro x hx
    rw [heq] at hx
    rcases List.mem_append.mp hx with hf | hc
    · have := np_arange_mem_lt _ _ _ _ hdf hf
      linarith
    · exact np_arange_mem_lt _ _ _ _ hdc hc

/-- Closed instance of `generate_time_array_spec` at the example inputs. -/
theorem generate_time_array_spec_witness :
    (generate_time_array (5/2) (1/2) 1 1).Nodup :=
  (generate_time_array_spec (5/2) (1/2) 1 1 (by norm_num) (by norm_num)
    (by norm_num)).2.2

/-- Claim C2 as stated is false at sampling rate `R = 2`, `delay = 0`,
`duration = 3/4`: the uniform array `np.arange(0, 3/4, 1/2)` has 2
samples (`= ⌈D·R⌉`), while `⌊D·R⌋ = 1`. -/
theorem uniform_length_counterexample :
    (uniform_time 2 0 (3/4)).length = 2 ∧ Int.toNat ⌊((0 : ℚ) + 3/4) * 2⌋ = 1 := by
  constructor
  · rw [uniform_time, np_arange_length,
      show ⌈(((0 : ℚ) + 3/4) - 0) / (1/2)⌉ = 2 by rw [Int.ceil_eq_iff]; norm_num]
    rfl
  · rw [show ⌊((0 : ℚ) + 3/4) * 2⌋ = 1 by rw [Int.floor_eq_iff]; norm_num]
    rfl

/-- Claim C2 (amended): in uniform mode the time array starts at 0, has
constant spacing `1/R`, and has length `⌈D·R⌉` with `D = delay +
duration` (the half-open range `[0, D)` contains `⌈D·R⌉` grid points;
this equals `⌊D·R⌋` exactly when `D·R` is an integer); in particular for
`sampling_rate = 10000`, `duration = 0.1`, `delay = 0.02` the array has
exactly 1200 samples. -/
theorem uniform_time_spec (R delay duration : ℚ) (hR : 0 < R)
    (hD : 0 < delay + duration) :
    (uniform_time R delay duration)[0]? = some 0 ∧
    (∀ i, i + 1 < (uniform_time R delay duration).length →
      (uniform_time R delay duration).getD (i+1) 0 -
        (uniform_time R delay duration).getD i 0 = 1 / R) ∧
    (uniform_time R delay duration).length = Int.toNat ⌈(delay + duration) * R⌉ ∧
    (uniform_time 10000 (1/50) (1/10)).length = 1200 := by
  have hlen : (uniform_time R delay duration).length =
      Int.toNat ⌈(delay + duration) * R⌉ := by
    rw [uniform_time, np_arange_length, sub_zero, one_div, div_inv_eq_mul]
  refine ⟨?_, ?_, hlen, ?_⟩
  · have hpos : 0 < (delay + duration) * R := mul_pos hD hR
    have h0 : 0 < (uniform_time R delay duration).length := by
      rw [hlen]
      exact Int.lt_toNat.mpr (Int.ceil_pos.mpr hpos)
    rw [List.getElem?_eq_getElem h0, ← List.getD_eq_getElem _ 0 h0, uniform_time,
      np_arange_getD _ _ _ 0 (by rw [← uniform_time]; exact h0)]
    norm_num
  · intro i hi
    have hi1 : i < (uniform_time R delay duration).length := Nat.lt_of_succ_lt hi
    rw [uniform_time, np_arange_getD _ _ _ (i+1) hi, np_arange_getD _ _ _ i hi1]
    push_cast
    ring
  · rw [uniform_time, np_arange_length,
      show ⌈(((1 : ℚ)/50 + 1/10) - 0) / (1/10000)⌉ = 1200 by
        rw [Int.ceil_eq_iff]; norm_num]
    rfl

/-- Closed instance of `uniform_time_spec`: the 1200-sample example. -/
theorem uniform_time_spec_witness :
    (uniform_time 10000 (1/50) (1/10)).length = 1200 :=
  (uniform_time_spec 10000 (1/50) (1/10) (by norm_num) (by norm_num)).2.2.2

theorem np_linspace_pairwise (stop : ℚ) (n : ℕ) (h : 0 < stop) :
    (np_linspace 0 stop n).Pairwise (· < ·) := by
  rcases Nat.eq_zero_or_pos n with rfl | hn
  · simp [np_linspace]
  · rw [np_linspace, List.pairwise_map]
    have hn2 : (0 : ℚ) < (n : ℚ) := by exact_mod_cast hn
    have hstep : 0 < (stop - 0) / (n : ℚ) := div_pos (by linarith) hn2
    refine (List.pairwise_lt_range _).imp ?_
    intro a b hab
    have h1 : (a : ℚ) < (b : ℚ) := by exact_mod_cast hab
    have h2 := mul_lt_mul_of_pos_right h1 hstep
    linarith

theorem np_linspace_mem_lt (stop : ℚ) (n : ℕ) (h : 0 < stop) (y : ℚ)
    (hy : y ∈ np_linspace 0 stop n) : y < stop := by
  simp only [np_linspace, List.mem_map, List.mem_range] at hy
  obtain ⟨i, hi, rfl⟩ := hy
  have hn : 0 < n := by omega
  have hn2 : (0 : ℚ) < (n : ℚ) := by exact_mod_cast hn
  have hstep : 0 < (stop - 0) / (n : ℚ) := div_pos (by linarith) hn2
  have h1 : (i : ℚ) * ((stop - 0) / (n : ℚ)) < (n : ℚ) * ((stop - 0) / (n : ℚ)) := by
    apply mul_lt_mul_of_pos_right _ hstep
    exact_mod_cast hi
  have h2 : (n : ℚ) * ((stop - 0) / (n : ℚ)) = stop := by
    field_simp
  linarith

theorem generate_time_array_mem_nonneg (duration df dc fd : ℚ)
    (hdf : 0 < df) (hdc : 0 < dc) (hfd : 0 ≤ fd) (x : ℚ)
    (hx : x ∈ generate_time_array duration df dc fd) : 0 ≤ x := by
  rw [generate_time_array_eq_append _ _ _ _ hdf hdc] at hx
  rcases List.mem_append.mp hx with hf | hc
  · exact np_arange_mem_ge _ _ _ _ (le_of_lt hdf) hf
  · exact le_trans hfd (np_arange_mem_ge _ _ _ _ (le_of_lt hdc) hc)

theorem final_time_var_pairwise (duration df dc fd delay : ℚ)
    (hdf : 0 < df) (hdc : 0 < dc) (hfd : 0 ≤ fd) (hdel : 0 ≤ delay) :
    (final_time_var duration df dc fd delay).Pairwise (· < ·) := by
  have ht0 : (var_time0 duration df dc fd).Pairwise (· < ·) := by
    rw [var_time0, List.pairwise_map]
    refine (generate_time_array_pairwise _ _ _ _ hdf hdc).imp ?_
    intro a b hab
    exact (div_lt_div_iff_of_pos_right (by norm_num)).mpr hab
  have ht0m : ((var_time0 duration df dc fd).map (fun x => x + delay)).Pairwise (· < ·) := by
    rw [List.pairwise_map]
    exact ht0.imp (fun hab => add_lt_add_right hab delay)
  rcases eq_or_lt_of_le hdel with heq | hpos
  · have hz : py_int (delay / dt_head (var_time0 duration df dc fd)) = 0 := by
      rw [← heq, zero_div]
      simp [py_int]
    simp only [final_time_var, hz, Int.toNat_zero]
    simpa [np_linspace] using ht0m
  · simp only [final_time_var]
    rw [List.pairwise_append]
    refine ⟨np_linspace_pairwise _ _ hpos, ht0m, ?_⟩
    intro a ha b hb
    have ha2 := np_linspace_mem_lt _ _ hpos a ha
    have hb2 : delay ≤ b := by
      simp only [List.mem_map, var_time0] at hb
      obtain ⟨y, hy, rfl⟩ := hb
      obtain ⟨z, hz2, rfl⟩ := hy
      have hz3 := generate_time_array_mem_nonneg _ _ _ _ hdf hdc hfd z hz2
      have hz4 : (0 : ℚ) ≤ z / 1000 := by positivity
      linarith
    linarith

/-- Claim C4: every final time array handed to the waveform model and the
stimulus file writer — built by uniform sampling, by variable-resolution
sampling, or by prepending the delay sub-sequence — is strictly
increasing with unique time values, given positive step parameters and a
nonnegative delay. -/
theorem final_time_strictly_increasing (R delayU durU durV df dc fd delayV : ℚ)
    (hR : 0 < R) (hdf : 0 < df) (hdc : 0 < dc) (hfd : 0 ≤ fd) (hdel : 0 ≤ delayV) :
    ((uniform_time R delayU durU).Pairwise (· < ·) ∧
      (uniform_time R delayU durU).Nodup) ∧
    ((generate_time_array durV df dc fd).Pairwise (· < ·) ∧
      (generate_time_array durV df dc fd).Nodup) ∧
    ((final_time_var durV df dc fd delayV).Pairwise (· < ·) ∧
      (final_time_var durV df dc fd delayV).Nodup) := by
  have h1 : (uniform_time R delayU durU).Pairwise (· < ·) :=
    np_arange_pairwise _ _ _ (by positivity)
  have h2 : (generate_time_array durV df dc fd).Pairwise (· < ·) :=
    generate_time_array_pairwise _ _ _ _ hdf hdc
  have h3 : (final_time_var durV df dc fd delayV).Pairwise (· < ·) :=
    final_time_var_pairwise _ _ _ _ _ hdf hdc hfd hdel
  exact ⟨⟨h1, h1.imp ne_of_lt⟩, ⟨h2, h2.imp ne_of_lt⟩, ⟨h3, h3.imp ne_of_lt⟩⟩

/-- Closed instance of `final_time_strictly_increasing` at the default
parameters (rate 10000 Hz, 20 ms delay, 100 ms duration; fine step
0.01 ms over 10 ms, coarse step 1 ms). -/
theorem final_time_strictly_increasing_witness :
    (uniform_time 10000 (1/50) (1/10)).Pairwise (· < ·) ∧
    (final_time_var (1/10) (1/100) 1 10 (1/50)).Pairwise (· < ·) :=
  ⟨(final_time_strictly_increasing 10000 (1/50) (1/10) (1/10) (1/100) 1 10 (1/50)
      (by norm_num) (by norm_num) (by norm_num) (by norm_num) (by norm_num)).1.1,
   (final_time_strictly_increasing 10000 (1/50) (1/10) (1/10) (1/100) 1 10 (1/50)
      (by norm_num) (by norm_num) (by norm_num) (by norm_num) (by norm_num)).2.2.1⟩

/-- Claim C5 as stated is false in uniform mode at `sampling_rate = 1`,
`delay = 0`, `duration = 5/2`: the code computes the auto-delay `1/32`
from `int((args.delay + args.duration)/dt) = 2`, but the full sweep it
then builds has 3 samples, and `(3/64) × step = 3/64 ≠ 1/32`. -/
theorem auto_delay_counterexample :
    main_delay_uniform true 1 0 (5/2) = 1/32 ∧
    (uniform_time 1 (main_delay_uniform true 1 0 (5/2)) (5/2)).length = 3 ∧
    ((((uniform_time 1 (main_delay_uniform true 1 0 (5/2)) (5/2)).length : ℚ) / 64) *
      (1/1) = 3/64) ∧
    (1/32 : ℚ) ≠ 3/64 := by
  have hf : ⌊((0 : ℚ) + 5/2) / (1/1)⌋ = 2 := by
    rw [Int.floor_eq_iff]; norm_num
  have h1 : main_delay_uniform true 1 0 (5/2) = 1/32 := by
    rw [main_delay_uniform, if_pos rfl, auto_delay_uniform]
    unfold py_int
    rw [if_pos (by norm_num), hf]
    norm_num
  have h2 : (uniform_time 1 (main_delay_uniform true 1 0 (5/2)) (5/2)).length = 3 := by
    rw [h1, uniform_time, np_arange_length,
      show ⌈(((1 : ℚ)/32 + 5/2) - 0) / (1/1)⌉ = 3 by rw [Int.ceil_eq_iff]; norm_num]
    rfl
  refine ⟨h1, h2, ?_, by norm_num⟩
  rw [h2]
  norm_num

/-- Claim C5 (amended): the auto-delay equals `(N/64) × step` where `N`
is `int((args.delay + args.duration) × R)` — the sample count computed
from the user-supplied delay plus duration, not from the final sweep —
in uniform mode, and the length of the stimulus array before the delay
sub-sequence is prepended (with `step = time[1] - time[0]`) in variable
mode; a fixed delay is used unchanged in both modes. -/
theorem main_delay_spec (R delay0 duration durV df dc fd : ℚ)
    (hR : 0 < R) (hd0 : 0 ≤ delay0) (hdur : 0 ≤ duration) :
    main_delay_uniform true R delay0 duration =
      ((Int.toNat ⌊(delay0 + duration) * R⌋ : ℚ) / 64) * (1 / R) ∧
    main_delay_uniform false R delay0 duration = delay0 ∧
    main_delay_var true durV df dc fd delay0 =
      (((var_time0 durV df dc fd).length : ℚ) / 64) *
        dt_head (var_time0 durV df dc fd) ∧
    main_delay_var false durV df dc fd delay0 = delay0 := by
  have hx : (0 : ℚ) ≤ (delay0 + duration) * R := mul_nonneg (by linarith) (le_of_lt hR)
  have hfl : (0 : ℤ) ≤ ⌊(delay0 + duration) * R⌋ := Int.floor_nonneg.mpr hx
  have hdiv : (delay0 + duration) / (1 / R) = (delay0 + duration) * R := by
    rw [one_div, div_inv_eq_mul]
  refine ⟨?_, ?_, ?_, ?_⟩
  · rw [main_delay_uniform, if_pos rfl, auto_delay_uniform, hdiv]
    unfold py_int
    rw [if_pos hx]
    have hcast : ((Int.toNat ⌊(delay0 + duration) * R⌋ : ℤ) : ℚ) =
        ((⌊(delay0 + duration) * R⌋ : ℤ) : ℚ) := by
      exact_mod_cast congrArg (fun (z : ℤ) => (z : ℚ)) (Int.toNat_of_nonneg hfl)
    push_cast at hcast ⊢
    rw [hcast]
  · rw [main_delay_uniform, if_neg (by simp)]
  · rw [main_delay_var, if_pos rfl, auto_delay_var]
  · rw [main_delay_var, if_neg (by simp)]

/-- Closed instance of `main_delay_spec` at the counterexample inputs. -/
theorem main_delay_spec_witness :
    main_delay_uniform false 1 0 (5/2) = 0 ∧
    main_delay_uniform true 1 0 (5/2) =
      ((Int.toNat ⌊((0 : ℚ) + 5/2) * 1⌋ : ℚ) / 64) * (1/1) :=
  ⟨(main_delay_spec 1 0 (5/2) 1 1 1 1 (by norm_num) (by norm_num) (by norm_num)).2.1,
   (main_delay_spec 1 0 (5/2) 1 1 1 1 (by norm_num) (by norm_num) (by norm_num)).1⟩

theorem list_max_mem (l : List ℚ) (h : l ≠ []) : list_max l ∈ l := by
  induction l using list_max.induct with
  | case1 => simp at h
  | case2 x => simp [list_max]
  | case3 x y xs ih =>
    simp only [list_max]
    rcases max_choice x (list_max (y :: xs)) with h1 | h1 <;> rw [h1]
    · exact List.mem_cons_self _ _
    · exact List.mem_cons_of_mem _ (ih (by simp))

theorem le_list_max (l : List ℚ) (x : ℚ) (hx : x ∈ l) : x ≤ list_max l := by
  induction l using list_max.induct with
  | case1 => simp at hx
  | case2 a =>
    rw [List.mem_singleton] at hx
    subst hx
    simp [list_max]
  | case3 a y xs ih =>
    simp only [list_max]
    rcases List.mem_cons.mp hx with rfl | h2
    · exact le_max_left _ _
    · exact le_trans (ih h2) (le_max_right _ _)

theorem list_min_mem (l : List ℚ) (h : l ≠ []) : list_min l ∈ l := by
  induction l using list_min.induct with
  | case1 => simp at h
  | case2 x => simp [list_min]
  | case3 x y xs ih =>
    simp only [list_min]
    rcases min_choice x (list_min (y :: xs)) with h1 | h1 <;> rw [h1]
    · exact List.mem_cons_self _ _
    · exact List.mem_cons_of_mem _ (ih (by simp))

theorem list_min_le (l : List ℚ) (x : ℚ) (hx : x ∈ l) : list_min l ≤ x := by
  induction l using list_min.induct with
  | case1 => simp at hx
  | case2 a =>
    rw [List.mem_singleton] at hx
    subst hx
    simp [list_min]
  | case3 a y xs ih =>
    simp only [list_min]
    rcases List.mem_cons.mp hx with rfl | h2
    · exact min_le_left _ _
    · exact le_trans (min_le_right _ _) (ih h2)

theorem np_argmax_lt_length (l : List ℚ) (h : l ≠ []) : np_argmax l < l.length := by
  induction l using np_argmax.induct with
  | case1 => simp at h
  | case2 x => simp [np_argmax]
  | case3 x y xs hc ih =>
    simp only [np_argmax, if_pos hc]
    have h2 := ih (by simp)
    simp only [List.length_cons] at h2 ⊢
    omega
  | case4 x y xs hc =>
    simp only [np_argmax, if_neg hc]
    simp

theorem np_argmax_getD (l : List ℚ) (h : l ≠ []) :
    l.getD (np_argmax l) 0 = list_max l := by
  induction l using np_argmax.induct with
  | case1 => simp at h
  | case2 x => simp [np_argmax, list_max]
  | case3 x y xs hc ih =>
    simp only [np_argmax, list_max, if_pos hc]
    rw [List.getD_cons_succ, ih (by simp), max_eq_right (le_of_lt hc)]
  | case4 x y xs hc =>
    simp only [np_argmax, list_max, if_neg hc]
    rw [List.getD_cons_zero, max_eq_left (not_lt.mp hc)]

theorem np_argmax_first (l : List ℚ) (j : ℕ) (hj : j < np_argmax l) :
    l.getD j 0 < list_max l := by
  induction l using np_argmax.induct generalizing j with
  | case1 => simp [np_argmax] at hj
  | case2 x => simp [np_argmax] at hj
  | case3 x y xs hc ih =>
    simp only [np_argmax, if_pos hc] at hj
    simp only [list_max]
    cases j with
    | zero =>
      rw [List.getD_cons_zero]
      exact lt_of_lt_of_le hc (le_max_right _ _)
    | succ k =>
      rw [List.getD_cons_succ]
      exact lt_of_lt_of_le (ih k (by omega)) (le_max_right _ _)
  | case4 x y xs hc =>
    simp only [np_argmax, if_neg hc] at hj
    omega

/-- Claim C7: for every non-empty current array, the peak reported by the
writer and supplied to the renderer is `(time[i], current[i])` where
`current[i]` equals the maximum of the current array and
`i = np.argmax(current)` is the first (smallest) index achieving that
maximum. -/
theorem peak_spec (time current : List ℚ) (h : current ≠ []) :
    np_argmax current < current.length ∧
    current.getD (np_argmax current) 0 = list_max current ∧
    (∀ x ∈ current, x ≤ list_max current) ∧
    (∀ j, j < np_argmax current → current.getD j 0 < list_max current) ∧
    atf_peak time current =
      (time.getD (np_argmax current) 0, current.getD (np_argmax current) 0) ∧
    plot_peak time current =
      (time.getD (np_argmax current) 0, current.getD (np_argmax current) 0) := by
  refine ⟨np_argmax_lt_length _ h, np_argmax_getD _ h, fun x hx => le_list_max _ x hx,
    fun j hj => np_argmax_first _ j hj, ?_, rfl⟩
  simp only [atf_peak]
  rw [np_argmax_getD _ h]

/-- Closed instance of `peak_spec` on `current = [1, 3, 3, 2]` (the
maximum 3 first occurs at index 1). -/
theorem peak_spec_witness :
    np_argmax [(1 : ℚ), 3, 3, 2] < 4 ∧
    ([(1 : ℚ), 3, 3, 2].getD (np_argmax [(1 : ℚ), 3, 3, 2]) 0 =
      list_max [(1 : ℚ), 3, 3, 2]) :=
  ⟨(peak_spec [0, 1, 2, 3] [1, 3, 3, 2] (by simp)).1,
   (peak_spec [0, 1, 2, 3] [1, 3, 3, 2] (by simp)).2.1⟩

/-- Claim C8: for every non-empty current array the stimulus file
header's display bounds are `YTop = max + 0.1·(max − min)` and
`YBottom = min − 0.1·(max − min)` — with `max`/`min` the maximum and
minimum of the current array — each written with two decimal places. -/
theorem display_bounds_spec (comment : String) (time current : List ℚ)
    (h : current ≠ []) :
    (∃ L, write_atf_file comment time current = Except.ok L ∧
      L.getD 4 "" = "\"YTop=" ++ fmt2 (list_max current +
        (1/10) * (list_max current - list_min current)) ++ "\"" ∧
      L.getD 5 "" = "\"YBottom=" ++ fmt2 (list_min current -
        (1/10) * (list_max current - list_min current)) ++ "\"") ∧
    list_max current ∈ current ∧ (∀ x ∈ current, x ≤ list_max current) ∧
    list_min current ∈ current ∧ (∀ x ∈ current, list_min current ≤ x) := by
  have hne : current.isEmpty = false := by
    cases current
    · exact absurd rfl h
    · rfl
  refine ⟨⟨atf_header_lines comment current ++
      (time.zip current).map (fun p => fmtG p.1 ++ "\t" ++ fmtG p.2),
      by simp [write_atf_file, hne], rfl, rfl⟩,
    list_max_mem _ h, fun x hx => le_list_max _ x hx,
    list_min_mem _ h, fun x hx => list_min_le _ x hx⟩

/-- Closed instance of `display_bounds_spec` on `current = [2, 1]`. -/
theorem display_bounds_spec_witness :
    (∃ L, write_atf_file "c" [(0 : ℚ)] [(2 : ℚ), 1] = Except.ok L ∧
      L.getD 4 "" = "\"YTop=" ++ fmt2 (list_max [(2 : ℚ), 1] +
        (1/10) * (list_max [(2 : ℚ), 1] - list_min [(2 : ℚ), 1])) ++ "\"" ∧
      L.getD 5 "" = "\"YBottom=" ++ fmt2 (list_min [(2 : ℚ), 1] -
        (1/10) * (list_max [(2 : ℚ), 1] - list_min [(2 : ℚ), 1])) ++ "\"") ∧
    list_max [(2 : ℚ), 1] ∈ [(2 : ℚ), 1] :=
  ⟨(display_bounds_spec "c" [0] [(2 : ℚ), 1] (by simp)).1,
   (display_bounds_spec "c" [0] [(2 : ℚ), 1] (by simp)).2.1⟩

/-- Claim C9: contrary to the claim, the code neither rejects nor
special-cases a zero-length time array — at `duration = 0`, `delay = 0`
the uniform time array is empty, and `write_atf_file` still starts the
file write, emitting four header lines before the `np.max` of the empty
current array raises. -/
theorem empty_array_write_fails :
    uniform_time 10000 0 0 = [] ∧
    write_atf_file "Simulated EPSP" [] [] =
      Except.error ["ATF\t1.0", "8\t2", "\"AcquisitionMode=Episodic Stimulation\"",
        "\"Comment=" ++ "Simulated EPSP" ++ "\""] := by
  constructor
  · have hc : ⌈(((0 : ℚ) + 0) - 0) / (1/10000)⌉ = 0 := by
      rw [Int.ceil_eq_iff]; norm_num
    rw [uniform_time, np_arange, hc]
    rfl
  · rfl

/-- Claim C10: for non-empty equal-length inputs the file starts with
the line `ATF⇥1.0`, then `8⇥2` declaring 8 header lines and 2 columns,
then exactly 8 header lines before the data (indices 2–9), and then one
tab-separated data row per (time, current) pair in input order, each
value rendered by the general number format. -/
theorem atf_file_layout_spec (comment : String) (time current : List ℚ)
    (h : current ≠ []) (hlen : time.length = current.length) :
    ∃ L, write_atf_file comment time current = Except.ok L ∧
      L.length = 10 + time.length ∧
      L.take 10 = atf_header_lines comment current ∧
      L.getD 0 "" = "ATF\t1.0" ∧
      L.getD 1 "" = "8\t2" ∧
      (∀ i, i < time.length →
        L.getD (10 + i) "" = fmtG (time.getD i 0) ++ "\t" ++ fmtG (current.getD i 0)) := by
  have hne : current.isEmpty = false := by
    cases current
    · exact absurd rfl h
    · rfl
  have h10 : (atf_header_lines comment current).length = 10 := rfl
  refine ⟨atf_header_lines comment current ++
      (time.zip current).map (fun p => fmtG p.1 ++ "\t" ++ fmtG p.2),
    by simp [write_atf_file, hne], ?_, ?_, rfl, rfl, ?_⟩
  · rw [List.length_append, List.length_map, List.length_zip, hlen, Nat.min_self, h10]
  · rw [← h10, List.take_left]
  · intro i hi
    have hge : (atf_header_lines comment current).length ≤ 10 + i := by
      rw [h10]
      omega
    rw [List.getD_append_right _ _ _ _ hge, h10, Nat.add_sub_cancel_left]
    have hmlen : i < ((time.zip current).map
        (fun p => fmtG p.1 ++ "\t" ++ fmtG p.2)).length := by
      rw [List.length_map, List.length_zip, hlen, Nat.min_self]
      rw [hlen] at hi
      exact hi
    have hci : i < current.length := by
      rw [hlen] at hi
      exact hi
    rw [List.getD_eq_getElem _ _ hmlen, List.getElem_map, List.getElem_zip,
      List.getD_eq_getElem _ _ hi, List.getD_eq_getElem _ _ hci]

/-- Closed instance of `atf_file_layout_spec` on a one-sample input. -/
theorem atf_file_layout_spec_witness :
    ∃ L, write_atf_file "c" [(0 : ℚ)] [(1 : ℚ)] = Except.ok L ∧
      L.length = 10 + [(0 : ℚ)].length ∧
      L.take 10 = atf_header_lines "c" [(1 : ℚ)] ∧
      L.getD 0 "" = "ATF\t1.0" ∧
      L.getD 1 "" = "8\t2" ∧
      (∀ i, i < [(0 : ℚ)].length →
        L.getD (10 + i) "" =
          fmtG ([(0 : ℚ)].getD i 0) ++ "\t" ++ fmtG ([(1 : ℚ)].getD i 0)) :=
  atf_file_layout_spec "c" [0] [1] (by simp) rfl

/-- Claim C1: for `t ≥ 0` the fast-rising model returns
`A1·(1−e^(−t/τr1))·e^(−t/τd1) + A2·(1−e^(−t/τr2))·e^(−t/τd2)` and the
slow-rising model returns `A·(1−e^(−t/τr))·e^(−t/τd)`; for `t < 0` both
return exactly 0; hence both return 0 at `t = 0`. Both are pure functions
of their arguments (no side effects). -/
theorem waveform_models_spec (A1 tr1 td1 A2 tr2 td2 A tr td t : ℝ) :
    (0 ≤ t → double_exponential t A1 tr1 td1 A2 tr2 td2 =
      A1 * (1 - Real.exp (-t / tr1)) * Real.exp (-t / td1) +
        A2 * (1 - Real.exp (-t / tr2)) * Real.exp (-t / td2)) ∧
    (t < 0 → double_exponential t A1 tr1 td1 A2 tr2 td2 = 0) ∧
    (0 ≤ t → single_exponential t A tr td =
      A * (1 - Real.exp (-t / tr)) * Real.exp (-t / td)) ∧
    (t < 0 → single_exponential t A tr td = 0) ∧
    double_exponential 0 A1 tr1 td1 A2 tr2 td2 = 0 ∧
    single_exponential 0 A tr td = 0 := by
  refine ⟨fun h => ?_, fun h => ?_, fun h => ?_, fun h => ?_, ?_, ?_⟩
  · simp only [double_exponential]
    rw [if_neg (not_lt.mpr h)]
  · simp only [double_exponential]
    rw [if_pos h]
  · simp only [single_exponential]
    rw [if_neg (not_lt.mpr h)]
  · simp only [single_exponential]
    rw [if_pos h]
  · simp [double_exponential]
  · simp [single_exponential]

/-- Closed instance of `waveform_models_spec` at the default parameters. -/
theorem waveform_models_spec_witness :
    double_exponential (-1) 150 1 1 70 3 20 = 0 ∧
    single_exponential (-1) 150 10 15 = 0 ∧
    double_exponential 1 150 1 1 70 3 20 =
      150 * (1 - Real.exp (-1 / 1)) * Real.exp (-1 / 1) +
        70 * (1 - Real.exp (-1 / 3)) * Real.exp (-1 / 20) ∧
    single_exponential 0 150 10 15 = 0 :=
  ⟨(waveform_models_spec 150 1 1 70 3 20 150 10 15 (-1)).2.1 (by norm_num),
   (waveform_models_spec 150 1 1 70 3 20 150 10 15 (-1)).2.2.2.1 (by norm_num),
   (waveform_models_spec 150 1 1 70 3 20 150 10 15 1).1 (by norm_num),
   (waveform_models_spec 150 1 1 70 3 20 150 10 15 0).2.2.2.2.2⟩

/-- Claim C6: the waveform model is evaluated at the stimulus-relative
time `time − delay` for every sample, and every sample whose absolute
time is strictly below the delay yields current exactly 0. -/
theorem stimulus_relative_time_spec (time : List ℚ)
    (delay A1 tr1 td1 A2 tr2 td2 A tr td : ℚ) (i : ℕ) (h : i < time.length) :
    ((main_current_fast time delay A1 tr1 td1 A2 tr2 td2)[i]? =
      some (double_exponential ((time.getD i 0 - delay : ℚ) : ℝ) (A1 : ℝ)
        ((tr1 : ℝ) / 1000) ((td1 : ℝ) / 1000) (A2 : ℝ)
        ((tr2 : ℝ) / 1000) ((td2 : ℝ) / 1000))) ∧
    ((main_current_slow time delay A tr td)[i]? =
      some (single_exponential ((time.getD i 0 - delay : ℚ) : ℝ) (A : ℝ)
        ((tr : ℝ) / 1000) ((td : ℝ) / 1000))) ∧
    (time.getD i 0 < delay →
      (main_current_fast time delay A1 tr1 td1 A2 tr2 td2)[i]? = some 0 ∧
      (main_current_slow time delay A tr td)[i]? = some 0) := by
  have hget : time[i]? = some (time.getD i 0) := by
    rw [List.getD_eq_getElem time 0 h]
    exact List.getElem?_eq_getElem h
  have hfast : (main_current_fast time delay A1 tr1 td1 A2 tr2 td2)[i]? =
      some (double_exponential ((time.getD i 0 - delay : ℚ) : ℝ) (A1 : ℝ)
        ((tr1 : ℝ) / 1000) ((td1 : ℝ) / 1000) (A2 : ℝ)
        ((tr2 : ℝ) / 1000) ((td2 : ℝ) / 1000)) := by
    unfold main_current_fast
    rw [List.getElem?_map, List.getElem?_map, hget]
    rfl
  have hslow : (main_current_slow time delay A tr td)[i]? =
      some (single_exponential ((time.getD i 0 - delay : ℚ) : ℝ) (A : ℝ)
        ((tr : ℝ) / 1000) ((td : ℝ) / 1000)) := by
    unfold main_current_slow
    rw [List.getElem?_map, List.getElem?_map, hget]
    rfl
  refine ⟨hfast, hslow, fun hx => ⟨?_, ?_⟩⟩
  · have h1 : ((time.getD i 0 - delay : ℚ) : ℝ) < 0 := by
      exact_mod_cast sub_neg.mpr hx
    rw [hfast]
    simp only [double_exponential]
    rw [if_pos h1]
  · have h1 : ((time.getD i 0 - delay : ℚ) : ℝ) < 0 := by
      exact_mod_cast sub_neg.mpr hx
    rw [hslow]
    simp only [single_exponential]
    rw [if_pos h1]

/-- Closed instance of `stimulus_relative_time_spec`: with `delay = 1`
the sample at absolute time 0 has current exactly 0 in both modes. -/
theorem stimulus_relative_time_spec_witness :
    (main_current_fast [0, 2] 1 150 1 1 70 3 20)[0]? = some 0 ∧
    (main_current_slow [0, 2] 1 150 10 15)[0]? = some 0 :=
  (stimulus_relative_time_spec [0, 2] 1 150 1 1 70 3 20 150 10 15 0
    (by norm_num)).2.2 (by norm_num)

end SimEPSP
